import Mathlib

/-!
A shallow embedding of the ZPromise library (`src/core.js`): the promise
state machine (`ZPromise`: `PromiseState`, `PromiseResult`, the two callback
queues, `resolve`, `reject`, `then`) and the recursive Resolution Procedure
(`resolveNextPromise`), together with the external `setTimeout` scheduler,
modelled as a FIFO task queue.

JavaScript values are modelled by the inductive `JSValue`; foreign objects
(potential thenables) live in a heap of `FObj` records whose `then` member is
a list of per-read results (so a getter with side effects is expressible) and
whose behaviour, when called as a function, is a finite script of calls to the
two continuations handed to it.  Promises live in a heap of `Prom` records
mirroring the four fields of the `ZPromise` class.  All mutation is explicit
state passing on `State`; the synchronous recursion inside
`resolveNextPromise` is fuelled.
-/

set_option maxRecDepth 10000

namespace ZP

/-- `'pending' | 'fulfilled' | 'rejected'` — the `PromiseState` field. -/
inductive PState
| pending
| fulfilled
| rejected
deriving DecidableEq

/-- JavaScript values, as far as the core inspects them: primitives,
ZPromise instances (heap references) and foreign objects (heap references,
callable or not). -/
inductive JSValue
| undef
| null
| bool (b : Bool)
| num (n : Int)
| str (t : String)
| promise (ref : Nat)
| obj (ref : Nat)
deriving DecidableEq

/-- One step of a foreign `then` function's behaviour: call the first
continuation (`resolvePromise`), call the second (`rejectPromise`), or throw. -/
inductive TAct
| res (v : JSValue)
| rej (v : JSValue)
| thrw (e : JSValue)
deriving DecidableEq

/-- Result of one read of a foreign object's `then` property: the getter
throws, or yields a value (a callable value is an `.obj` whose record is
marked callable). -/
inductive ThenProp
| throws (e : JSValue)
| val (v : JSValue)
deriving DecidableEq

/-- A foreign object: whether `Object.prototype.toString` tags it as a
function, the successive results of reading its `then` property (index =
how many reads happened before; past the end the property reads as
`undefined`), its behaviour when invoked as a function, and how many times
`then` has been read so far. -/
structure FObj where
  callable : Bool
  thens : List ThenProp
  script : List TAct
  reads : Nat
deriving DecidableEq

/-- Body of a user-supplied reaction handler: return a fixed value, return
the very promise the `then` call created (the chaining-cycle scenario), or
throw. -/
inductive FnBody
| ret (v : JSValue)
| retSelf
| thrw (e : JSValue)
deriving DecidableEq

/-- An argument passed to `then`: a non-callable value (including
`undefined`, i.e. omitted), a user function, or one of the two internal
closures the Resolution Procedure passes to `x.then` when `x` is a ZPromise:
`(wrapResult) => resolveNextPromise(p, wrapResult, resolve, reject)` and the
bound `reject` itself. -/
inductive Handler
| notFn (v : JSValue)
| user (body : FnBody)
| resolveCont (target : Nat)
| rejectCont (target : Nat)
deriving DecidableEq

/-- One entry of `onFulfilledCallbacks` / `onRejectedCallbacks`: the closure
pushed by `then` captures the downstream promise and the registered handler. -/
structure Callback where
  target : Nat
  handler : Handler
deriving DecidableEq

/-- The `ZPromise` instance fields. -/
structure Prom where
  PromiseState : PState
  PromiseResult : JSValue
  onFulfilledCallbacks : List Callback
  onRejectedCallbacks : List Callback
deriving DecidableEq

/-- Which queue a scheduled reaction came from. -/
inductive QKind
| onF
| onR
deriving DecidableEq

/-- A unit of work handed to `setTimeout`: run the reaction `handler` for
source promise `src` (whose `PromiseResult` is read at run time) against the
downstream promise `target`. -/
structure Task where
  src : Nat
  target : Nat
  handler : Handler
  kind : QKind
deriving DecidableEq

/-- Global state: the promise heap, the foreign-object heap, the FIFO
`setTimeout` queue, a log of foreign-function invocations
`(function ref, receiver)`, and a count of user handler invocations. -/
structure State where
  proms : List Prom
  objs : List FObj
  tasks : List Task
  calls : List (Nat × JSValue)
  userCalls : Nat
deriving DecidableEq

/-- `this.PromiseState = 'pending'; this.PromiseResult = null;` with empty
queues — a freshly constructed ZPromise. -/
def freshProm : Prom := ⟨.pending, .null, [], []⟩

def setProm (s : State) (i : Nat) (pr : Prom) : State :=
  { s with proms := s.proms.set i pr }

def setObj (s : State) (i : Nat) (o : FObj) : State :=
  { s with objs := s.objs.set i o }

/-- `Object.prototype.toString.call(val)` — the `getType` helper. -/
def getType (s : State) : JSValue → String
  | .undef => "[object Undefined]"
  | .null => "[object Null]"
  | .bool _ => "[object Boolean]"
  | .num _ => "[object Number]"
  | .str _ => "[object String]"
  | .promise _ => "[object Object]"
  | .obj i =>
    match s.objs.get? i with
    | some o => if o.callable then "[object Function]" else "[object Object]"
    | none => "[object Object]"

/-- The reason of `new TypeError('Chaining cycle detected for promise')`. -/
def typeErrorVal : JSValue := .str "TypeError: Chaining cycle detected for promise"

/-- `ZPromise.prototype.resolve` (the private settle-fulfilled method):
effective only while `'pending'`; sets state and result, then invokes every
queued fulfillment callback in order — each queued closure just hands its
reaction to `setTimeout`, here: appends the reaction task to the queue.  The
callback array itself is not cleared. -/
def resolve (s : State) (p : Nat) (v : JSValue) : State :=
  match s.proms.get? p with
  | none => s
  | some pr =>
    if pr.PromiseState = .pending then
      let s1 := setProm s p { pr with PromiseState := .fulfilled, PromiseResult := v }
      { s1 with tasks := s1.tasks ++
          pr.onFulfilledCallbacks.map (fun cb => ⟨p, cb.target, cb.handler, .onF⟩) }
    else s

/-- `ZPromise.prototype.reject`, symmetric to `resolve`. -/
def reject (s : State) (p : Nat) (v : JSValue) : State :=
  match s.proms.get? p with
  | none => s
  | some pr =>
    if pr.PromiseState = .pending then
      let s1 := setProm s p { pr with PromiseState := .rejected, PromiseResult := v }
      { s1 with tasks := s1.tasks ++
          pr.onRejectedCallbacks.map (fun cb => ⟨p, cb.target, cb.handler, .onR⟩) }
    else s

/-- `ZPromise.prototype.then`: allocates the new promise `p`, then runs the
internal executor synchronously — if the receiver is already fulfilled
(resp. rejected) it hands the single reaction to `setTimeout`; if pending it
pushes one closure onto each callback queue.  Returns the new state and the
reference of `p`. -/
def thenP (s : State) (src : Nat) (f g : Handler) : State × Nat :=
  match s.proms.get? src with
  | none => (s, 0)
  | some pr =>
    let p := s.proms.length
    let s1 : State := { s with proms := s.proms ++ [freshProm] }
    match pr.PromiseState with
    | .fulfilled => ({ s1 with tasks := s1.tasks ++ [⟨src, p, f, .onF⟩] }, p)
    | .rejected => ({ s1 with tasks := s1.tasks ++ [⟨src, p, g, .onR⟩] }, p)
    | .pending =>
      (setProm s1 src { pr with
        onFulfilledCallbacks := pr.onFulfilledCallbacks ++ [⟨p, f⟩],
        onRejectedCallbacks := pr.onRejectedCallbacks ++ [⟨p, g⟩] }, p)

/-- `typeof h === 'function'`: user functions and the two internal closures
are functions; everything else is not. -/
def isFuncHandler : Handler → Bool
  | .notFn _ => false
  | _ => true

/-- The script run when foreign object `j` is invoked as a function. -/
def scriptOf (s : State) (j : Nat) : List TAct :=
  match s.objs.get? j with
  | some o => o.script
  | none => []

/-- Outcome of one call of the Resolution Procedure: returned normally,
threw a JavaScript exception, or ran out of modelling fuel. -/
inductive ROut
| ok
| threw (e : JSValue)
| fuelOut
deriving DecidableEq

/-- Outcome of executing a foreign `then` body: finished, escaped with an
exception, or ran out of fuel. -/
inductive EOut
| fin
| exc (e : JSValue)
| fuelOut
deriving DecidableEq

/-- Execution of a foreign `then` function's body, parameterised by the
re-entry `rp` into the Resolution Procedure.  The boolean is the local
`called` flag shared by the two continuations: a `res`/`rej` step is ignored
once `called` is set; the first `res` sets it and re-enters `rp`; the first
`rej` sets it and rejects `p`; a `thrw` aborts the body, the exception
escaping to the caller together with the current flag. -/
def execActs (rp : State → Nat → JSValue → State × ROut) (p : Nat) :
    State → List TAct → Bool → State × Bool × EOut
  | s, [], called => (s, called, .fin)
  | s, .res v :: rest, called =>
    if called then execActs rp p s rest called
    else
      match rp s p v with
      | (s1, .ok) => execActs rp p s1 rest true
      | (s1, .threw e) => (s1, true, .exc e)
      | (s1, .fuelOut) => (s1, true, .fuelOut)
  | s, .rej v :: rest, called =>
    if called then execActs rp p s rest called
    else execActs rp p (reject s p v) rest true
  | s, .thrw e :: rest, called => (s, called, .exc e)

/-- `try { thenFunc.call(x, onInner, onErr) } catch (error) { if (called)
return; called = true; reject(error) }` — run the body with the flag down;
an escaping exception is swallowed when a continuation already fired, and
otherwise rejects `p`. -/
def scriptOutcome (rp : State → Nat → JSValue → State × ROut)
    (s : State) (p : Nat) (acts : List TAct) : State × ROut :=
  match execActs rp p s acts false with
  | (s1, _, .fin) => (s1, .ok)
  | (s1, called, .exc e) => if called then (s1, .ok) else (reject s1 p e, .ok)
  | (s1, _, .fuelOut) => (s1, .fuelOut)

/-- `resolveNextPromise(p, x, resolve, reject)` — the Resolution Procedure.
At every reachable call site `resolve`/`reject` are the bound settle methods
of `p`, so they are not passed separately here.  In order:
`if (p === x) throw TypeError`; if `x instanceof ZPromise`, adopt via
`x.then(wrapResult => resolveNextPromise(p, wrapResult, …), reject)`; if
`getType(x)` is `[object Object]` or `[object Function]` (exactly the
`.obj` values; promises were already handled), read `x.then` once — a
throwing getter rejects `p` and execution falls through to the non-callable
branch (`resolve(x)`, a no-op by then); a callable `then` is invoked with
receiver `x`; a non-callable `then` means `resolve(x)`.  Otherwise
`resolve(x)`. -/
def resolveNextPromise : Nat → State → Nat → JSValue → State × ROut
  | 0, s, _, _ => (s, .fuelOut)
  | fuel + 1, s, p, x =>
    match x with
    | .promise q =>
      if q = p then (s, .threw typeErrorVal)
      else ((thenP s q (.resolveCont p) (.rejectCont p)).1, .ok)
    | .obj i =>
      match s.objs.get? i with
      | none => (resolve s p x, .ok)
      | some o =>
        let s1 := setObj s i { o with reads := o.reads + 1 }
        match o.thens.getD o.reads (.val .undef) with
        | .throws e => (resolve (reject s1 p e) p x, .ok)
        | .val tf =>
          if getType s1 tf = "[object Function]" then
            match tf with
            | .obj j =>
              scriptOutcome (resolveNextPromise fuel)
                { s1 with calls := s1.calls ++ [(j, x)] } p (scriptOf s1 j)
            | _ => (s1, .ok)
          else (resolve s1 p x, .ok)
    | v => (resolve s p v, .ok)

/-- Result of invoking a handler: a return value, a thrown exception, or
fuel exhaustion inside an internal continuation. -/
inductive HRes
| val (v : JSValue)
| exc (e : JSValue)
| fuelOut
deriving DecidableEq

/-- Invoke a callable handler with argument `arg`; `tgt` is the downstream
promise of the reaction (what `retSelf` returns, mirroring
`const p1 = promise.then(() => p1)`).  A user invocation is counted.  The
internal closures run the Resolution Procedure / the bound `reject` and
return `undefined`. -/
def runHandler (fuel : Nat) (s : State) (tgt : Nat) (h : Handler) (arg : JSValue) :
    State × HRes :=
  match h with
  | .notFn _ => (s, .val .undef)
  | .user body =>
    let s1 : State := { s with userCalls := s.userCalls + 1 }
    match body with
    | .ret v => (s1, .val v)
    | .retSelf => (s1, .val (.promise tgt))
    | .thrw e => (s1, .exc e)
  | .resolveCont q =>
    match resolveNextPromise fuel s q arg with
    | (s1, .ok) => (s1, .val .undef)
    | (s1, .threw e) => (s1, .exc e)
    | (s1, .fuelOut) => (s1, .fuelOut)
  | .rejectCont q => (reject s q arg, .val .undef)

/-- The common body of every scheduled reaction:
`try { if (typeof h === 'function') { const x = h(r); resolveNextPromise(p,
x, resolve, reject) } else settle(r) } catch (e) { reject(e) }` where
`settle` is `resolve` on the fulfillment path and `reject` on the rejection
path. -/
def runReaction (fuel : Nat) (s : State) (tgt : Nat) (h : Handler) (r : JSValue)
    (k : QKind) : State :=
  if isFuncHandler h then
    match runHandler fuel s tgt h r with
    | (s1, .val v) =>
      match resolveNextPromise fuel s1 tgt v with
      | (s2, .ok) => s2
      | (s2, .threw e) => reject s2 tgt e
      | (s2, .fuelOut) => s2
    | (s1, .exc e) => reject s1 tgt e
    | (s1, .fuelOut) => s1
  else
    match k with
    | .onF => resolve s tgt r
    | .onR => reject s tgt r

/-- Run one `setTimeout` task: read the source promise's `PromiseResult` now
and run the reaction. -/
def runTask (fuel : Nat) (s : State) (t : Task) : State :=
  match s.proms.get? t.src with
  | none => s
  | some srcPr => runReaction fuel s t.target t.handler srcPr.PromiseResult t.kind

/-- One turn of the external event loop: take the front task (FIFO) and run
it; idle if the queue is empty. -/
def step (fuel : Nat) (s : State) : State :=
  match s.tasks with
  | [] => s
  | t :: rest => runTask fuel { s with tasks := rest } t

/-- Run `n` event-loop turns. -/
def stepN (fuel : Nat) : Nat → State → State
  | 0, s => s
  | n + 1, s => stepN fuel n (step fuel s)

/-- `new ZPromise(executor)` with the adapter's deferred executor (the
executor only captures the two bound settle methods): allocate a fresh
pending promise. -/
def newPromise (s : State) : State × Nat :=
  ({ s with proms := s.proms ++ [freshProm] }, s.proms.length)

/-- The empty initial state. -/
def state0 : State := ⟨[], [], [], [], 0⟩

/-- A settled promise used by witnesses. -/
def sW1 : State := ⟨[⟨.fulfilled, .num 1, [], []⟩], [], [], [], 0⟩

/-! ### Preservation infrastructure

`Frozen s s'` says every promise already settled in `s` is untouched in
`s'` — the heart of settlement monotonicity.  `Pres` adds that no user
handler was invoked, which holds for everything the Resolution Procedure
does synchronously. -/

theorem get?_lt {α : Type} {l : List α} {n : Nat} {a : α}
    (h : l.get? n = some a) : n < l.length := by
  rcases List.get?_eq_some.mp h with ⟨hlt, _⟩
  exact hlt

def Frozen (s s' : State) : Prop :=
  ∀ i pr, s.proms.get? i = some pr → pr.PromiseState ≠ .pending →
    s'.proms.get? i = some pr

def Pres (s s' : State) : Prop := Frozen s s' ∧ s'.userCalls = s.userCalls

theorem frozenRfl {s : State} : Frozen s s := fun _ _ hi _ => hi

theorem frozenOfPromsEq {s s' : State} (h : s'.proms = s.proms) : Frozen s s' :=
  fun i pr hi _ => h ▸ hi

theorem frozenTrans {s₁ s₂ s₃ : State} (h₁ : Frozen s₁ s₂) (h₂ : Frozen s₂ s₃) :
    Frozen s₁ s₃ :=
  fun i pr hi hst => h₂ i pr (h₁ i pr hi hst) hst

theorem presRfl {s : State} : Pres s s := ⟨frozenRfl, rfl⟩

theorem presTrans {s₁ s₂ s₃ : State} (h₁ : Pres s₁ s₂) (h₂ : Pres s₂ s₃) :
    Pres s₁ s₃ :=
  ⟨frozenTrans h₁.1 h₂.1, h₂.2.trans h₁.2⟩

theorem frozen_resolve (s : State) (p : Nat) (v : JSValue) :
    Frozen s (resolve s p v) := by
  intro i pr hi hst
  unfold resolve
  split
  · exact hi
  · rename_i prp hp
    split
    · rename_i hpend
      show (s.proms.set p _).get? i = some pr
      by_cases hip : p = i
      · subst hip
        rw [hi] at hp
        injection hp with h
        exact absurd (h ▸ hpend) hst
      · rw [List.get?_set_ne _ _ hip]
        exact hi
    · exact hi

theorem frozen_reject (s : State) (p : Nat) (v : JSValue) :
    Frozen s (reject s p v) := by
  intro i pr hi hst
  unfold reject
  split
  · exact hi
  · rename_i prp hp
    split
    · rename_i hpend
      show (s.proms.set p _).get? i = some pr
      by_cases hip : p = i
      · subst hip
        rw [hi] at hp
        injection hp with h
        exact absurd (h ▸ hpend) hst
      · rw [List.get?_set_ne _ _ hip]
        exact hi
    · exact hi

theorem frozen_thenP (s : State) (src : Nat) (f g : Handler) :
    Frozen s (thenP s src f g).1 := by
  intro i pr hi hst
  have hlen : i < s.proms.length := get?_lt hi
  unfold thenP
  split
  · exact hi
  · rename_i prs hp
    split
    · show (s.proms ++ [freshProm]).get? i = some pr
      rw [List.get?_append hlen]
      exact hi
    · show (s.proms ++ [freshProm]).get? i = some pr
      rw [List.get?_append hlen]
      exact hi
    · show ((s.proms ++ [freshProm]).set src _).get? i = some pr
      rename_i hpend
      by_cases hip : src = i
      · subst hip
        rw [hi] at hp
        injection hp with h
        rw [← h] at hpend
        exact absurd (by rw [hpend]) hst
      · rw [List.get?_set_ne _ _ hip, List.get?_append hlen]
        exact hi

theorem userCalls_resolve (s : State) (p : Nat) (v : JSValue) :
    (resolve s p v).userCalls = s.userCalls := by
  unfold resolve
  split
  · rfl
  · split <;> rfl

theorem userCalls_reject (s : State) (p : Nat) (v : JSValue) :
    (reject s p v).userCalls = s.userCalls := by
  unfold reject
  split
  · rfl
  · split <;> rfl

theorem userCalls_thenP (s : State) (src : Nat) (f g : Handler) :
    (thenP s src f g).1.userCalls = s.userCalls := by
  unfold thenP
  split
  · rfl
  · split <;> rfl

theorem pres_resolve (s : State) (p : Nat) (v : JSValue) : Pres s (resolve s p v) :=
  ⟨frozen_resolve s p v, userCalls_resolve s p v⟩

theorem pres_reject (s : State) (p : Nat) (v : JSValue) : Pres s (reject s p v) :=
  ⟨frozen_reject s p v, userCalls_reject s p v⟩

theorem pres_thenP (s : State) (src : Nat) (f g : Handler) :
    Pres s (thenP s src f g).1 :=
  ⟨frozen_thenP s src f g, userCalls_thenP s src f g⟩

theorem pres_execActs (rp : State → Nat → JSValue → State × ROut) (p : Nat)
    (hrp : ∀ s q x, Pres s (rp s q x).1) :
    ∀ (acts : List TAct) (s : State) (c : Bool),
      Pres s (execActs rp p s acts c).1 := by
  intro acts
  induction acts with
  | nil => intro s c; exact presRfl
  | cons a rest ih =>
    intro s c
    cases a with
    | res v =>
      cases c with
      | true =>
        simpa only [execActs, if_true] using ih s true
      | false =>
        simp only [execActs, if_false, Bool.false_eq_true]
        rcases h : rp s p v with ⟨s1, o⟩
        have hs1 : Pres s s1 := by
          have := hrp s p v
          rw [h] at this
          exact this
        cases o with
        | ok => exact presTrans hs1 (ih s1 true)
        | threw e => exact hs1
        | fuelOut => exact hs1
    | rej v =>
      cases c with
      | true =>
        simpa only [execActs, if_true] using ih s true
      | false =>
        simp only [execActs, if_false, Bool.false_eq_true]
        exact presTrans (pres_reject s p v) (ih _ true)
    | thrw e => exact presRfl

theorem pres_scriptOutcome (rp : State → Nat → JSValue → State × ROut)
    (hrp : ∀ s q x, Pres s (rp s q x).1)
    (s : State) (p : Nat) (acts : List TAct) :
    Pres s (scriptOutcome rp s p acts).1 := by
  unfold scriptOutcome
  rcases h : execActs rp p s acts false with ⟨s1, called, o⟩
  have hs1 : Pres s s1 := by
    have := pres_execActs rp p hrp acts s false
    rw [h] at this
    exact this
  cases o with
  | fin => exact hs1
  | exc e =>
    cases called with
    | true => simpa using hs1
    | false => simpa using presTrans hs1 (pres_reject s1 p e)
  | fuelOut => exact hs1

theorem pres_resolveNextPromise :
    ∀ (fuel : Nat) (s : State) (p : Nat) (x : JSValue),
      Pres s (resolveNextPromise fuel s p x).1 := by
  intro fuel
  induction fuel with
  | zero => intro s p x; exact presRfl
  | succ fuel ih =>
    intro s p x
    cases x with
    | promise q =>
      simp only [resolveNextPromise]
      by_cases hq : q = p
      · simp [hq]; exact presRfl
      · simp only [hq, if_false]
        exact pres_thenP s q _ _
    | obj i =>
      simp only [resolveNextPromise]
      cases ho : s.objs.get? i with
      | none => exact pres_resolve s p _
      | some o =>
        simp only []
        have hobjs : Pres s (setObj s i { o with reads := o.reads + 1 }) :=
          ⟨frozenOfPromsEq rfl, rfl⟩
        cases hprop : o.thens.getD o.reads (.val .undef) with
        | throws e =>
          exact presTrans (presTrans hobjs (pres_reject _ p e)) (pres_resolve _ p _)
        | val tf =>
          by_cases hft : getType (setObj s i { o with reads := o.reads + 1 }) tf =
              "[object Function]"
          · simp only [hft, if_true]
            cases tf with
            | obj j =>
              refine presTrans (presTrans hobjs ?_)
                (pres_scriptOutcome (resolveNextPromise fuel) ih _ p _)
              exact ⟨frozenOfPromsEq rfl, rfl⟩
            | undef => exact hobjs
            | null => exact hobjs
            | bool b => exact hobjs
            | num n => exact hobjs
            | str t => exact hobjs
            | promise q => exact hobjs
          · simp only [hft, if_false]
            exact presTrans hobjs (pres_resolve _ p _)
    | undef => exact pres_resolve s p _
    | null => exact pres_resolve s p _
    | bool b => exact pres_resolve s p _
    | num n => exact pres_resolve s p _
    | str t => exact pres_resolve s p _

theorem frozen_runHandler (fuel : Nat) (s : State) (tgt : Nat) (h : Handler)
    (arg : JSValue) : Frozen s (runHandler fuel s tgt h arg).1 := by
  unfold runHandler
  cases h with
  | notFn v => exact frozenRfl
  | user body => cases body <;> exact frozenOfPromsEq rfl
  | resolveCont q =>
    dsimp only
    rcases hr : resolveNextPromise fuel s q arg with ⟨s1, o⟩
    have hs1 : Frozen s s1 := by
      have := (pres_resolveNextPromise fuel s q arg).1
      rw [hr] at this
      exact this
    cases o <;> exact hs1
  | rejectCont q => exact frozen_reject s q arg

theorem frozen_runReaction (fuel : Nat) (s : State) (tgt : Nat) (h : Handler)
    (r : JSValue) (k : QKind) : Frozen s (runReaction fuel s tgt h r k) := by
  unfold runReaction
  by_cases hf : isFuncHandler h = true
  · simp only [hf, if_true]
    rcases hh : runHandler fuel s tgt h r with ⟨s1, hres⟩
    have hs1 : Frozen s s1 := by
      have := frozen_runHandler fuel s tgt h r
      rw [hh] at this
      exact this
    cases hres with
    | val v =>
      dsimp only
      rcases hr : resolveNextPromise fuel s1 tgt v with ⟨s2, o⟩
      have hs2 : Frozen s1 s2 := by
        have := (pres_resolveNextPromise fuel s1 tgt v).1
        rw [hr] at this
        exact this
      cases o with
      | ok => exact frozenTrans hs1 hs2
      | threw e => exact frozenTrans (frozenTrans hs1 hs2) (frozen_reject s2 tgt e)
      | fuelOut => exact frozenTrans hs1 hs2
    | exc e => exact frozenTrans hs1 (frozen_reject s1 tgt e)
    | fuelOut => exact hs1
  · simp only [hf, if_false]
    cases k with
    | onF => exact frozen_resolve s tgt r
    | onR => exact frozen_reject s tgt r

theorem frozen_runTask (fuel : Nat) (s : State) (t : Task) :
    Frozen s (runTask fuel s t) := by
  unfold runTask
  split
  · exact frozenRfl
  · exact frozen_runReaction fuel s t.target t.handler _ t.kind

theorem frozen_step (fuel : Nat) (s : State) : Frozen s (step fuel s) := by
  unfold step
  split
  · exact frozenRfl
  · rename_i t rest _
    exact frozenTrans
      (frozenOfPromsEq (rfl : ({ s with tasks := rest } : State).proms = s.proms))
      (frozen_runTask fuel _ t)

theorem frozen_stepN (fuel : Nat) :
    ∀ (n : Nat) (s : State), Frozen s (stepN fuel n s) := by
  intro n
  induction n with
  | zero => intro s; exact frozenRfl
  | succ n ih =>
    intro s
    exact frozenTrans (frozen_step fuel s) (ih (step fuel s))

/-! ### Unfolding equations for the operations -/

theorem resolve_pending {s : State} {p : Nat} {pr : Prom} (v : JSValue)
    (h : s.proms.get? p = some pr) (hp : pr.PromiseState = .pending) :
    resolve s p v =
      { s with
        proms := s.proms.set p
          { pr with PromiseState := .fulfilled, PromiseResult := v },
        tasks := s.tasks ++
          pr.onFulfilledCallbacks.map (fun cb => ⟨p, cb.target, cb.handler, .onF⟩) } := by
  unfold resolve
  rw [h]
  simp [hp, setProm]

theorem reject_pending {s : State} {p : Nat} {pr : Prom} (v : JSValue)
    (h : s.proms.get? p = some pr) (hp : pr.PromiseState = .pending) :
    reject s p v =
      { s with
        proms := s.proms.set p
          { pr with PromiseState := .rejected, PromiseResult := v },
        tasks := s.tasks ++
          pr.onRejectedCallbacks.map (fun cb => ⟨p, cb.target, cb.handler, .onR⟩) } := by
  unfold reject
  rw [h]
  simp [hp, setProm]

theorem resolve_settled {s : State} {p : Nat} {pr : Prom} (v : JSValue)
    (h : s.proms.get? p = some pr) (hp : pr.PromiseState ≠ .pending) :
    resolve s p v = s := by
  unfold resolve
  rw [h]
  simp [hp]

theorem reject_settled {s : State} {p : Nat} {pr : Prom} (v : JSValue)
    (h : s.proms.get? p = some pr) (hp : pr.PromiseState ≠ .pending) :
    reject s p v = s := by
  unfold reject
  rw [h]
  simp [hp]

theorem thenP_fulfilled {s : State} {src : Nat} {pr : Prom} (f g : Handler)
    (h : s.proms.get? src = some pr) (hf : pr.PromiseState = .fulfilled) :
    thenP s src f g =
      ({ s with
          proms := s.proms ++ [freshProm]
          tasks := s.tasks ++ [⟨src, s.proms.length, f, .onF⟩] }, s.proms.length) := by
  unfold thenP
  rw [h]
  simp [hf]

theorem thenP_rejected {s : State} {src : Nat} {pr : Prom} (f g : Handler)
    (h : s.proms.get? src = some pr) (hf : pr.PromiseState = .rejected) :
    thenP s src f g =
      ({ s with
          proms := s.proms ++ [freshProm]
          tasks := s.tasks ++ [⟨src, s.proms.length, g, .onR⟩] }, s.proms.length) := by
  unfold thenP
  rw [h]
  simp [hf]

/-- The receiver's record after `then` pushed the pair of closures while
pending. -/
def pushedPr (pr : Prom) (p : Nat) (f g : Handler) : Prom :=
  { pr with
    onFulfilledCallbacks := pr.onFulfilledCallbacks ++ [⟨p, f⟩]
    onRejectedCallbacks := pr.onRejectedCallbacks ++ [⟨p, g⟩] }

theorem thenP_pending {s : State} {src : Nat} {pr : Prom} (f g : Handler)
    (h : s.proms.get? src = some pr) (hf : pr.PromiseState = .pending) :
    thenP s src f g =
      ({ s with proms := (s.proms ++ [freshProm]).set src (pushedPr pr s.proms.length f g) },
       s.proms.length) := by
  unfold thenP
  rw [h]
  simp [hf, setProm, pushedPr]

theorem step_nil {fuel : Nat} {s : State} (h : s.tasks = []) : step fuel s = s := by
  unfold step
  rw [h]

theorem step_cons {fuel : Nat} {s : State} {t : Task} {rest : List Task}
    (h : s.tasks = t :: rest) :
    step fuel s = runTask fuel { s with tasks := rest } t := by
  unfold step
  rw [h]

theorem runTask_eq {fuel : Nat} {s : State} {t : Task} {pr : Prom}
    (h : s.proms.get? t.src = some pr) :
    runTask fuel s t = runReaction fuel s t.target t.handler pr.PromiseResult t.kind := by
  unfold runTask
  rw [h]

theorem runReaction_notFn_onF (fuel : Nat) (s : State) (tgt : Nat) (v r : JSValue) :
    runReaction fuel s tgt (.notFn v) r .onF = resolve s tgt r := rfl

theorem runReaction_notFn_onR (fuel : Nat) (s : State) (tgt : Nat) (v r : JSValue) :
    runReaction fuel s tgt (.notFn v) r .onR = reject s tgt r := rfl

theorem runReaction_rejectCont {fuel : Nat} {s s2 : State} {q tgt : Nat}
    {r : JSValue} (k : QKind)
    (h2 : resolveNextPromise fuel (reject s q r) tgt .undef = (s2, .ok)) :
    runReaction fuel s tgt (.rejectCont q) r k = s2 := by
  unfold runReaction runHandler
  simp only [isFuncHandler, if_true, h2]

theorem runReaction_resolveCont_ok {fuel : Nat} {s s1 s2 : State} {q tgt : Nat}
    {r : JSValue} (k : QKind)
    (h1 : resolveNextPromise fuel s q r = (s1, .ok))
    (h2 : resolveNextPromise fuel s1 tgt .undef = (s2, .ok)) :
    runReaction fuel s tgt (.resolveCont q) r k = s2 := by
  unfold runReaction runHandler
  simp only [isFuncHandler, if_true, h1, h2]

theorem runReaction_resolveCont_threw {fuel : Nat} {s s1 : State} {q tgt : Nat}
    {r e : JSValue} (k : QKind)
    (h1 : resolveNextPromise fuel s q r = (s1, .threw e)) :
    runReaction fuel s tgt (.resolveCont q) r k = reject s1 tgt e := by
  unfold runReaction runHandler
  simp only [isFuncHandler, if_true, h1]

/-- `2.3.4`: values that are neither object nor function. -/
def isPlain : JSValue → Bool
  | .promise _ => false
  | .obj _ => false
  | _ => true

theorem rnp_plain {v : JSValue} (fuel : Nat) (s : State) (p : Nat)
    (hv : isPlain v = true) :
    resolveNextPromise (fuel + 1) s p v = (resolve s p v, .ok) := by
  cases v <;> simp_all [resolveNextPromise, isPlain]

theorem rnp_promise_self (fuel : Nat) (s : State) (p : Nat) :
    resolveNextPromise (fuel + 1) s p (.promise p) = (s, .threw typeErrorVal) := by
  simp [resolveNextPromise]

theorem rnp_promise_ne {q p : Nat} (fuel : Nat) (s : State) (hqp : q ≠ p) :
    resolveNextPromise (fuel + 1) s p (.promise q) =
      ((thenP s q (.resolveCont p) (.rejectCont p)).1, .ok) := by
  simp [resolveNextPromise, hqp]

/-! ### Claim C1 -/

/-- C1: For every ZPromise, the state starts as pending (at both
construction sites: the constructor and the promise allocated inside
`then`); once the state has left pending, the promise record — state and
result included — is never modified again by `then`, by the Resolution
Procedure, or by any number of event-loop turns; and every later call to
the bound `resolve` or `reject` (the executor's, a reaction's, or a foreign
thenable's continuations all end in these two methods) leaves the whole
state exactly unchanged. -/
theorem zp_c1_state_transitions_at_most_once :
    (∀ s : State, (newPromise s).1.proms.get? (newPromise s).2 = some freshProm)
    ∧ (∀ (s : State) (src : Nat) (f g : Handler) (pr : Prom),
        s.proms.get? src = some pr →
        (thenP s src f g).1.proms.get? (thenP s src f g).2 = some freshProm)
    ∧ (∀ (s : State) (p : Nat) (pr : Prom) (v : JSValue),
        s.proms.get? p = some pr → pr.PromiseState ≠ .pending →
        resolve s p v = s ∧ reject s p v = s)
    ∧ (∀ (s : State) (src : Nat) (f g : Handler), Frozen s (thenP s src f g).1)
    ∧ (∀ (fuel : Nat) (s : State) (p : Nat) (x : JSValue),
        Frozen s (resolveNextPromise fuel s p x).1)
    ∧ (∀ (fuel n : Nat) (s : State), Frozen s (stepN fuel n s)) := by
  refine ⟨?_, ?_, ?_, ?_, ?_, ?_⟩
  · intro s
    exact List.get?_concat_length s.proms freshProm
  · intro s src f g pr h
    cases hst : pr.PromiseState with
    | fulfilled =>
      rw [thenP_fulfilled f g h hst]
      exact List.get?_concat_length s.proms freshProm
    | rejected =>
      rw [thenP_rejected f g h hst]
      exact List.get?_concat_length s.proms freshProm
    | pending =>
      rw [thenP_pending f g h hst]
      show ((s.proms ++ [freshProm]).set src _).get? s.proms.length = some freshProm
      have hsrc : src < s.proms.length := get?_lt h
      rw [List.get?_set_ne _ _ (Nat.ne_of_lt hsrc)]
      exact List.get?_concat_length s.proms freshProm
  · intro s p pr v h hst
    exact ⟨resolve_settled v h hst, reject_settled v h hst⟩
  · intro s src f g
    exact frozen_thenP s src f g
  · intro fuel s p x
    exact (pres_resolveNextPromise fuel s p x).1
  · intro fuel n s
    exact frozen_stepN fuel n s

/-! ### Claim C3: the thenable decision table -/

theorem rnp_obj_throws {s : State} {i : Nat} {o : FObj} {e : JSValue}
    (fuel : Nat) (p : Nat) (ho : s.objs.get? i = some o)
    (hp : o.thens.getD o.reads (.val .undef) = .throws e) :
    resolveNextPromise (fuel + 1) s p (.obj i) =
      (resolve (reject (setObj s i { o with reads := o.reads + 1 }) p e) p (.obj i),
       .ok) := by
  simp only [resolveNextPromise]
  rw [ho]
  simp only [hp]

theorem rnp_obj_notFunc {s : State} {i : Nat} {o : FObj} {tf : JSValue}
    (fuel : Nat) (p : Nat) (ho : s.objs.get? i = some o)
    (hp : o.thens.getD o.reads (.val .undef) = .val tf)
    (hft : getType (setObj s i { o with reads := o.reads + 1 }) tf ≠ "[object Function]") :
    resolveNextPromise (fuel + 1) s p (.obj i) =
      (resolve (setObj s i { o with reads := o.reads + 1 }) p (.obj i), .ok) := by
  simp only [resolveNextPromise]
  rw [ho]
  simp only [hp]
  rw [if_neg hft]

theorem rnp_obj_call {s : State} {i j : Nat} {o : FObj}
    (fuel : Nat) (p : Nat) (ho : s.objs.get? i = some o)
    (hp : o.thens.getD o.reads (.val .undef) = .val (.obj j))
    (hft : getType (setObj s i { o with reads := o.reads + 1 }) (.obj j) =
      "[object Function]") :
    resolveNextPromise (fuel + 1) s p (.obj i) =
      scriptOutcome (resolveNextPromise fuel)
        { setObj s i { o with reads := o.reads + 1 } with
            calls := s.calls ++ [(j, .obj i)] }
        p (scriptOf (setObj s i { o with reads := o.reads + 1 }) j) := by
  simp only [resolveNextPromise]
  rw [ho]
  simp only [hp, hft, if_true]
  rfl

theorem objs_resolve (s : State) (p : Nat) (v : JSValue) :
    (resolve s p v).objs = s.objs := by
  unfold resolve
  split
  · rfl
  · split <;> rfl

theorem objs_reject (s : State) (p : Nat) (v : JSValue) :
    (reject s p v).objs = s.objs := by
  unfold reject
  split
  · rfl
  · split <;> rfl

theorem calls_resolve (s : State) (p : Nat) (v : JSValue) :
    (resolve s p v).calls = s.calls := by
  unfold resolve
  split
  · rfl
  · split <;> rfl

theorem calls_reject (s : State) (p : Nat) (v : JSValue) :
    (reject s p v).calls = s.calls := by
  unfold reject
  split
  · rfl
  · split <;> rfl

/-- C3: the Resolution Procedure's decision table for candidates that are
not the target and not a ZPromise.  (1) A value that is neither an object
nor callable is fulfilled directly as a plain value, with no `then`
inspection (the foreign-object heap is untouched).  (2) For every foreign
object or callable value `x` the `then` property is read (the read counter
advances even when the getter throws).  (3) When the property is not
callable, the target is resolved directly with `x` itself, after the read.
(4) When the property is callable, `x` is adopted as a thenable: the
procedure reduces to invoking the obtained function with receiver `x` and
running its body. -/
theorem zp_c3_object_or_callable_then_inspection :
    (∀ (fuel : Nat) (s : State) (p : Nat) (v : JSValue), isPlain v = true →
      resolveNextPromise (fuel + 1) s p v = (resolve s p v, .ok)
      ∧ (resolve s p v).objs = s.objs)
    ∧ (∀ (fuel : Nat) (s : State) (p i : Nat) (o : FObj) (e : JSValue),
        s.objs.get? i = some o →
        o.thens.getD o.reads (.val .undef) = .throws e →
        resolveNextPromise (fuel + 1) s p (.obj i) =
          (resolve (reject (setObj s i { o with reads := o.reads + 1 }) p e) p
            (.obj i), .ok))
    ∧ (∀ (fuel : Nat) (s : State) (p i : Nat) (o : FObj) (tf : JSValue),
        s.objs.get? i = some o →
        o.thens.getD o.reads (.val .undef) = .val tf →
        getType (setObj s i { o with reads := o.reads + 1 }) tf ≠ "[object Function]" →
        resolveNextPromise (fuel + 1) s p (.obj i) =
          (resolve (setObj s i { o with reads := o.reads + 1 }) p (.obj i), .ok))
    ∧ (∀ (fuel : Nat) (s : State) (p i j : Nat) (o : FObj),
        s.objs.get? i = some o →
        o.thens.getD o.reads (.val .undef) = .val (.obj j) →
        getType (setObj s i { o with reads := o.reads + 1 }) (.obj j) =
          "[object Function]" →
        resolveNextPromise (fuel + 1) s p (.obj i) =
          scriptOutcome (resolveNextPromise fuel)
            { setObj s i { o with reads := o.reads + 1 } with
                calls := s.calls ++ [(j, .obj i)] }
            p (scriptOf (setObj s i { o with reads := o.reads + 1 }) j)) := by
  refine ⟨?_, ?_, ?_, ?_⟩
  · intro fuel s p v hv
    exact ⟨rnp_plain fuel s p hv, objs_resolve s p v⟩
  · intro fuel s p i o e ho hp
    exact rnp_obj_throws fuel p ho hp
  · intro fuel s p i o tf ho hp hft
    exact rnp_obj_notFunc fuel p ho hp hft
  · intro fuel s p i j o ho hp hft
    exact rnp_obj_call fuel p ho hp hft

/-- A pending promise together with a thenable `{ then: f }` whose `then`
member `f` is a callable foreign object, used by several witnesses. -/
def sW3 : State :=
  ⟨[freshProm],
   [⟨false, [.val (.obj 1)], [], 0⟩,
    ⟨true, [], [.res (.num 5), .res (.num 6), .rej (.num 7)], 0⟩],
   [], [], 0⟩

/-- Witness for C3 at concrete inputs: a number is fulfilled directly; the
thenable of `sW3` leads to the invocation of its `then` member. -/
theorem zp_c3_object_or_callable_then_inspection_witness :
    resolveNextPromise 4 sW3 0 (.num 7) = (resolve sW3 0 (.num 7), .ok)
    ∧ resolveNextPromise 4 sW3 0 (.obj 0) =
        scriptOutcome (resolveNextPromise 3)
          { setObj sW3 0 ⟨false, [.val (.obj 1)], [], 1⟩ with
              calls := [(1, .obj 0)] }
          0 [.res (.num 5), .res (.num 6), .rej (.num 7)] := by
  constructor
  · exact (zp_c3_object_or_callable_then_inspection.1 3 sW3 0 (.num 7) (by decide)).1
  · have h := zp_c3_object_or_callable_then_inspection.2.2.2 3 sW3 0 0 1
      ⟨false, [.val (.obj 1)], [], 0⟩ rfl rfl (by decide)
    simpa using h

/-! ### Claim C10: the `then` property is read exactly once per attempt -/

theorem objs_thenP (s : State) (src : Nat) (f g : Handler) :
    (thenP s src f g).1.objs = s.objs := by
  unfold thenP
  split
  · rfl
  · split <;> rfl

theorem calls_thenP (s : State) (src : Nat) (f g : Handler) :
    (thenP s src f g).1.calls = s.calls := by
  unfold thenP
  split
  · rfl
  · split <;> rfl

theorem rnp_nonObj_heapEq {v : JSValue} (fuel : Nat) (s : State) (p : Nat)
    (hv : ∀ k, v ≠ .obj k) :
    (resolveNextPromise fuel s p v).1.objs = s.objs
    ∧ (resolveNextPromise fuel s p v).1.calls = s.calls := by
  cases fuel with
  | zero => exact ⟨rfl, rfl⟩
  | succ fuel =>
    cases v with
    | promise q =>
      by_cases hq : q = p
      · rw [hq, rnp_promise_self fuel s]
        exact ⟨rfl, rfl⟩
      · rw [rnp_promise_ne fuel s hq]
        exact ⟨objs_thenP s q _ _, calls_thenP s q _ _⟩
    | obj k => exact absurd rfl (hv k)
    | undef => exact ⟨objs_resolve s p _, calls_resolve s p _⟩
    | null => exact ⟨objs_resolve s p _, calls_resolve s p _⟩
    | bool b => exact ⟨objs_resolve s p _, calls_resolve s p _⟩
    | num n => exact ⟨objs_resolve s p _, calls_resolve s p _⟩
    | str t => exact ⟨objs_resolve s p _, calls_resolve s p _⟩

/-- Scripts whose `resolvePromise` calls never pass a foreign object (so the
recursive resolution they trigger performs no further `then` reads). -/
def simpleActs : List TAct → Bool
  | [] => true
  | .res (.obj _) :: _ => false
  | .res _ :: rest => simpleActs rest
  | .rej _ :: rest => simpleActs rest
  | .thrw _ :: rest => simpleActs rest

theorem execActs_simple_heapEq (fuel : Nat) (p : Nat) :
    ∀ (acts : List TAct) (s : State) (c : Bool), simpleActs acts = true →
      (execActs (resolveNextPromise fuel) p s acts c).1.objs = s.objs
      ∧ (execActs (resolveNextPromise fuel) p s acts c).1.calls = s.calls := by
  intro acts
  induction acts with
  | nil => intro s c _; exact ⟨rfl, rfl⟩
  | cons a rest ih =>
    intro s c hsimp
    cases a with
    | res v =>
      have hv : ∀ k, v ≠ JSValue.obj k := by
        intro k hk
        subst hk
        simp [simpleActs] at hsimp
      have hrest : simpleActs rest = true := by
        cases v <;> simp_all [simpleActs]
      cases c with
      | true => simpa only [execActs, if_true] using ih s true hrest
      | false =>
        simp only [execActs, if_false, Bool.false_eq_true]
        rcases h : resolveNextPromise fuel s p v with ⟨s1, o⟩
        have hs1 : s1.objs = s.objs ∧ s1.calls = s.calls := by
          have := rnp_nonObj_heapEq fuel s p hv
          rw [h] at this
          exact this
        cases o with
        | ok =>
          have := ih s1 true hrest
          exact ⟨this.1.trans hs1.1, this.2.trans hs1.2⟩
        | threw e => exact hs1
        | fuelOut => exact hs1
    | rej v =>
      have hrest : simpleActs rest = true := by simpa [simpleActs] using hsimp
      cases c with
      | true => simpa only [execActs, if_true] using ih s true hrest
      | false =>
        simp only [execActs, if_false, Bool.false_eq_true]
        have := ih (reject s p v) true hrest
        exact ⟨this.1.trans (objs_reject s p v), this.2.trans (calls_reject s p v)⟩
    | thrw e => exact ⟨rfl, rfl⟩

theorem scriptOutcome_simple_heapEq (fuel : Nat) (s : State) (p : Nat)
    (acts : List TAct) (hsimp : simpleActs acts = true) :
    (scriptOutcome (resolveNextPromise fuel) s p acts).1.objs = s.objs
    ∧ (scriptOutcome (resolveNextPromise fuel) s p acts).1.calls = s.calls := by
  unfold scriptOutcome
  rcases h : execActs (resolveNextPromise fuel) p s acts false with ⟨s1, called, o⟩
  have hs1 : s1.objs = s.objs ∧ s1.calls = s.calls := by
    have := execActs_simple_heapEq fuel p acts s false hsimp
    rw [h] at this
    exact this
  cases o with
  | fin => exact hs1
  | exc e =>
    cases called with
    | true => simpa using hs1
    | false =>
      simp only [Bool.false_eq_true, if_false]
      exact ⟨(objs_reject s1 p e).trans hs1.1, (calls_reject s1 p e).trans hs1.2⟩
  | fuelOut => exact hs1

/-- C10: one call of the Resolution Procedure on a foreign thenable `x`
reads `x.then` exactly once — the read counter of `x` advances from `reads`
to `reads + 1` and (when the obtained function's body triggers no further
object resolution) no other read happens — and the function value obtained
by that single read (the callable `then` at index `reads`) is the one
invoked, with `x` itself as receiver: the call log grows by exactly
`(j, x)`. -/
theorem zp_c10_then_read_exactly_once (fuel : Nat) (s : State) (p i j : Nat)
    (o : FObj) (ho : s.objs.get? i = some o)
    (hp : o.thens.getD o.reads (.val .undef) = .val (.obj j))
    (hft : getType (setObj s i { o with reads := o.reads + 1 }) (.obj j) =
      "[object Function]")
    (hsimp : simpleActs (scriptOf (setObj s i { o with reads := o.reads + 1 }) j) = true) :
    (resolveNextPromise (fuel + 1) s p (.obj i)).1.objs =
      s.objs.set i { o with reads := o.reads + 1 }
    ∧ (resolveNextPromise (fuel + 1) s p (.obj i)).1.calls =
      s.calls ++ [(j, .obj i)] := by
  rw [rnp_obj_call fuel p ho hp hft]
  have h := scriptOutcome_simple_heapEq fuel
    { setObj s i { o with reads := o.reads + 1 } with calls := s.calls ++ [(j, .obj i)] }
    p (scriptOf (setObj s i { o with reads := o.reads + 1 }) j) hsimp
  exact ⟨h.1, h.2⟩

/-- Witness for C10 at concrete inputs. -/
theorem zp_c10_then_read_exactly_once_witness :
    (resolveNextPromise 4 sW3 0 (.obj 0)).1.objs =
      [⟨false, [.val (.obj 1)], [], 1⟩, ⟨true, [], [.res (.num 5), .res (.num 6), .rej (.num 7)], 0⟩]
    ∧ (resolveNextPromise 4 sW3 0 (.obj 0)).1.calls = [(1, .obj 0)] := by
  have h := zp_c10_then_read_exactly_once 3 sW3 0 0 1 ⟨false, [.val (.obj 1)], [], 0⟩
    rfl rfl (by decide) (by decide)
  simpa using h

/-! ### Claim C5: first-settlement-wins inside a foreign `then` call -/

theorem execActs_true_eq (rp : State → Nat → JSValue → State × ROut) (p : Nat) :
    ∀ (acts : List TAct) (s : State),
      execActs rp p s acts true = (s, true, .fin)
      ∨ ∃ e, execActs rp p s acts true = (s, true, .exc e) := by
  intro acts
  induction acts with
  | nil => intro s; exact Or.inl rfl
  | cons a rest ih =>
    intro s
    cases a with
    | res v => simpa only [execActs, if_true] using ih s
    | rej v => simpa only [execActs, if_true] using ih s
    | thrw e => exact Or.inr ⟨e, rfl⟩

theorem scriptOutcome_first_wins (rp : State → Nat → JSValue → State × ROut)
    (s : State) (p : Nat) (a : TAct) (rest : List TAct) :
    scriptOutcome rp s p (a :: rest) = scriptOutcome rp s p [a] := by
  cases a with
  | res v =>
    unfold scriptOutcome
    simp only [execActs, if_false, Bool.false_eq_true]
    rcases h : rp s p v with ⟨s1, o⟩
    cases o with
    | ok =>
      rcases execActs_true_eq rp p rest s1 with hr | ⟨e, hr⟩ <;> simp [hr]
    | threw e => rfl
    | fuelOut => rfl
  | rej v =>
    unfold scriptOutcome
    simp only [execActs, if_false, Bool.false_eq_true]
    rcases execActs_true_eq rp p rest (reject s p v) with hr | ⟨e, hr⟩ <;> simp [hr]
  | thrw e => rfl

/-- C5: when a foreign thenable's `then` is invoked with the two fresh
continuations, only the first event — `resolvePromise` called,
`rejectPromise` called, or an exception thrown during the invocation —
takes effect; whatever the body does afterwards changes nothing (running
`first action :: rest` equals running just the first action).  Concretely,
`{ then(res, rej) { res(5); res(6); rej(7) } }` fulfills the target with
`5`. -/
theorem zp_c5_first_settlement_wins :
    (∀ (fuel : Nat) (s : State) (p : Nat) (a : TAct) (rest : List TAct),
      scriptOutcome (resolveNextPromise fuel) s p (a :: rest) =
        scriptOutcome (resolveNextPromise fuel) s p [a])
    ∧ (resolveNextPromise 4 sW3 0 (.obj 0)).1.proms.get? 0 =
        some ⟨.fulfilled, .num 5, [], []⟩ := by
  constructor
  · intro fuel s p a rest
    exact scriptOutcome_first_wins (resolveNextPromise fuel) s p a rest
  · decide

/-! ### Claim C2: chaining-cycle detection -/

/-- Direct cycle: `a` fulfilled with `1`; `p1 = a.then(() => p1)`; one turn. -/
def c2Direct : State :=
  stepN 9 1 (thenP (resolve (newPromise state0).1 0 (.num 1)) 0
    (.user .retSelf) (.notFn .undef)).1

/-- Nested cycle: `b`, `c` pending; the Resolution Procedure resolves `b`
with `c`; then `c` is fulfilled with `b`; one turn. -/
def c2Nested : State :=
  stepN 9 1 (resolve
    (resolveNextPromise 9 (newPromise (newPromise state0).1).1 0 (.promise 1)).1
    1 (.promise 0))

/-- Thenable cycle: `b` pending; `b` is resolved with
`{ then(res, rej) { res(b) } }`. -/
def c2Thenable : State × ROut :=
  resolveNextPromise 9
    ⟨[freshProm],
     [⟨false, [.val (.obj 1)], [], 0⟩, ⟨true, [], [.res (.promise 0)], 0⟩],
     [], [], 0⟩
    0 (.obj 0)

/-- C2, evaluated on the code: only the direct route behaves as the claim
says.  (1) Direct self-resolution rejects the target with the TypeError.
(2) Reaching the identity through a nested ZPromise chain leaves the target
pending forever — the TypeError rejects only the internal promise that the
adoption's `x.then(...)` call created (heap index 2).  (3) Reaching it
through a foreign thenable's resolve continuation also leaves the target
pending: the thrown TypeError is swallowed by the `called` guard of the
`catch` block, and in both failing routes no uncaught throw escapes the
procedure (it returns normally). -/
theorem zp_c2_cycle_detection_behaviour :
    c2Direct.proms.get? 1 = some ⟨.rejected, typeErrorVal, [], []⟩
    ∧ c2Nested.proms.get? 0 = some freshProm
    ∧ c2Nested.proms.get? 2 = some ⟨.rejected, typeErrorVal, [], []⟩
    ∧ c2Thenable.2 = .ok
    ∧ c2Thenable.1.proms.get? 0 = some freshProm := by
  refine ⟨?_, ?_, ?_, ?_, ?_⟩ <;> decide

/-! ### Claim C4: queue discipline

The code never empties `onFulfilledCallbacks` / `onRejectedCallbacks`
(`forEach` invokes the entries but the arrays are kept), so the claim "after
settlement both queues are empty" fails; the amended discipline below holds. -/

/-- A promise with one registered reaction pair, still pending. -/
def c4Pre : State :=
  (thenP (newPromise state0).1 0 (.user (.ret (.num 1))) (.notFn .undef)).1

/-- The same promise after settlement. -/
def c4State : State := resolve c4Pre 0 (.num 7)

/-- Counterexample to C4 as stated: after `p.then(f)` and `resolve(p, 7)`
the promise is fulfilled, yet both callback arrays still hold their entry —
they are non-empty with the state not pending, and are not emptied by
settlement. -/
theorem zp_c4_queues_counterexample :
    c4State.proms.get? 0 =
      some ⟨.fulfilled, .num 7, [⟨1, .user (.ret (.num 1))⟩], [⟨1, .notFn .undef⟩]⟩ := by
  decide

/-- C4 amended: the queues only grow while pending (`then` on a settled
promise touches no existing promise record); at settlement the matching
queue is drained with exactly one reaction task scheduled per entry, in
order, while the record keeps its (now dead) arrays; and settlement is
never re-run — any later `resolve`/`reject` call leaves the state exactly
unchanged, so no entry is ever invoked a second time. -/
theorem zp_c4_queue_discipline_amended :
    (∀ (s : State) (src : Nat) (f g : Handler) (pr : Prom) (i : Nat),
      s.proms.get? src = some pr → pr.PromiseState ≠ .pending →
      i < s.proms.length →
      (thenP s src f g).1.proms.get? i = s.proms.get? i)
    ∧ (∀ (s : State) (p : Nat) (pr : Prom) (v : JSValue),
        s.proms.get? p = some pr → pr.PromiseState = .pending →
        (resolve s p v).tasks = s.tasks ++
          pr.onFulfilledCallbacks.map (fun cb => (⟨p, cb.target, cb.handler, .onF⟩ : Task))
        ∧ (resolve s p v).proms.get? p =
            some { pr with PromiseState := .fulfilled, PromiseResult := v }
        ∧ (reject s p v).tasks = s.tasks ++
            pr.onRejectedCallbacks.map (fun cb => (⟨p, cb.target, cb.handler, .onR⟩ : Task))
        ∧ (reject s p v).proms.get? p =
            some { pr with PromiseState := .rejected, PromiseResult := v })
    ∧ (∀ (s : State) (p : Nat) (pr : Prom) (v : JSValue),
        s.proms.get? p = some pr → pr.PromiseState ≠ .pending →
        resolve s p v = s ∧ reject s p v = s) := by
  refine ⟨?_, ?_, ?_⟩
  · intro s src f g pr i h hst hi
    cases hk : pr.PromiseState with
    | pending => exact absurd hk hst
    | fulfilled =>
      rw [thenP_fulfilled f g h hk]
      exact List.get?_append hi
    | rejected =>
      rw [thenP_rejected f g h hk]
      exact List.get?_append hi
  · intro s p pr v h hp
    have hlt : p < s.proms.length := get?_lt h
    refine ⟨?_, ?_, ?_, ?_⟩
    · rw [resolve_pending v h hp]
    · rw [resolve_pending v h hp]
      exact List.get?_set_eq_of_lt _ hlt
    · rw [reject_pending v h hp]
    · rw [reject_pending v h hp]
      exact List.get?_set_eq_of_lt _ hlt
  · intro s p pr v h hst
    exact ⟨resolve_settled v h hst, reject_settled v h hst⟩

/-- Witness for the amended C4 at concrete inputs. -/
theorem zp_c4_queue_discipline_amended_witness :
    (thenP c4State 0 (.notFn .undef) (.notFn .undef)).1.proms.get? 0 =
      c4State.proms.get? 0
    ∧ (resolve c4Pre 0 (.num 7)).proms.get? 0 =
        some ⟨.fulfilled, .num 7, [⟨1, .user (.ret (.num 1))⟩], [⟨1, .notFn .undef⟩]⟩
    ∧ resolve c4State 0 (.num 9) = c4State := by
  refine ⟨?_, ?_, ?_⟩
  · exact zp_c4_queue_discipline_amended.1 c4State 0 (.notFn .undef) (.notFn .undef)
      ⟨.fulfilled, .num 7, [⟨1, .user (.ret (.num 1))⟩], [⟨1, .notFn .undef⟩]⟩ 0
      (by decide) (by decide) (by decide)
  · exact (zp_c4_queue_discipline_amended.2.1 c4Pre 0
      ⟨.pending, .null, [⟨1, .user (.ret (.num 1))⟩], [⟨1, .notFn .undef⟩]⟩
      (.num 7) (by decide) (by decide)).2.1
  · exact (zp_c4_queue_discipline_amended.2.2 c4State 0
      ⟨.fulfilled, .num 7, [⟨1, .user (.ret (.num 1))⟩], [⟨1, .notFn .undef⟩]⟩
      (.num 9) (by decide) (by decide)).1

/-! ### Claim C6: reactions are never run inside the registering call -/

theorem userCalls_runHandler_user (fuel : Nat) (s : State) (tgt : Nat)
    (body : FnBody) (arg : JSValue) :
    (runHandler fuel s tgt (.user body) arg).1.userCalls = s.userCalls + 1 := by
  cases body <;> rfl

/-- C6: a reaction registered via `then` never runs inside the registering
call.  `then` itself invokes no user handler (the invocation counter is
unchanged, for every receiver state); on an already-settled receiver it only
hands one task to the scheduler (`setTimeout`); that handler then runs on
the next event-loop turn — a single `step` after registering on a fulfilled
receiver performs exactly one user-handler invocation. -/
theorem zp_c6_no_synchronous_reactions :
    (∀ (s : State) (src : Nat) (f g : Handler),
      (thenP s src f g).1.userCalls = s.userCalls)
    ∧ (∀ (s : State) (src : Nat) (f g : Handler) (pr : Prom),
        s.proms.get? src = some pr → pr.PromiseState = .fulfilled →
        (thenP s src f g).1.tasks = s.tasks ++ [⟨src, s.proms.length, f, .onF⟩])
    ∧ (∀ (s : State) (src : Nat) (f g : Handler) (pr : Prom),
        s.proms.get? src = some pr → pr.PromiseState = .rejected →
        (thenP s src f g).1.tasks = s.tasks ++ [⟨src, s.proms.length, g, .onR⟩])
    ∧ (∀ (fuel : Nat) (s : State) (src : Nat) (body : FnBody) (g : Handler) (pr : Prom),
        s.proms.get? src = some pr → pr.PromiseState = .fulfilled → s.tasks = [] →
        (step fuel (thenP s src (.user body) g).1).userCalls = s.userCalls + 1) := by
  refine ⟨?_, ?_, ?_, ?_⟩
  · intro s src f g
    exact userCalls_thenP s src f g
  · intro s src f g pr h hf
    rw [thenP_fulfilled f g h hf]
  · intro s src f g pr h hf
    rw [thenP_rejected f g h hf]
  · intro fuel s src body g pr h hf htasks
    rw [thenP_fulfilled (.user body) g h hf]
    have hstep : ({ s with
        proms := s.proms ++ [freshProm]
        tasks := s.tasks ++ [⟨src, s.proms.length, .user body, .onF⟩] } : State).tasks =
        (⟨src, s.proms.length, .user body, .onF⟩ : Task) :: [] := by
      simp [htasks]
    rw [step_cons hstep]
    have hsrcp : ({ s with
        proms := s.proms ++ [freshProm]
        tasks := ([] : List Task) } : State).proms.get?
        (⟨src, s.proms.length, .user body, .onF⟩ : Task).src = some pr := by
      show (s.proms ++ [freshProm]).get? src = some pr
      rw [List.get?_append (get?_lt h)]
      exact h
    rw [runTask_eq hsrcp]
    unfold runReaction
    rw [if_pos (by rfl)]
    rcases hh : runHandler fuel _ s.proms.length (.user body) pr.PromiseResult
      with ⟨s1, hres⟩
    have hs1 : s1.userCalls = s.userCalls + 1 := by
      have := userCalls_runHandler_user fuel
        { s with proms := s.proms ++ [freshProm], tasks := ([] : List Task) }
        s.proms.length body pr.PromiseResult
      rw [hh] at this
      exact this
    cases hres with
    | val v =>
      dsimp only
      rcases hr : resolveNextPromise fuel s1 s.proms.length v with ⟨s2, o⟩
      have hs2 : s2.userCalls = s1.userCalls := by
        have := (pres_resolveNextPromise fuel s1 s.proms.length v).2
        rw [hr] at this
        exact this
      cases o with
      | ok => rw [hs2, hs1]
      | threw e => rw [userCalls_reject, hs2, hs1]
      | fuelOut => rw [hs2, hs1]
    | exc e =>
      dsimp only
      rw [userCalls_reject, hs1]
    | fuelOut => exact hs1

/-- Witness for C6 at a concrete input: registering on a fulfilled promise
runs nothing synchronously; the handler fires on the next turn. -/
theorem zp_c6_no_synchronous_reactions_witness :
    (thenP sW1 0 (.user (.ret (.num 3))) (.notFn .undef)).1.userCalls = 0
    ∧ (thenP sW1 0 (.user (.ret (.num 3))) (.notFn .undef)).1.tasks =
        [⟨0, 1, .user (.ret (.num 3)), .onF⟩]
    ∧ (step 3 (thenP sW1 0 (.user (.ret (.num 3))) (.notFn .undef)).1).userCalls = 1 := by
  have e1 : sW1.proms.get? 0 = some ⟨.fulfilled, .num 1, [], []⟩ := by decide
  have e2 : (⟨.fulfilled, .num 1, [], []⟩ : Prom).PromiseState = .fulfilled := by decide
  have e3 : sW1.tasks = [] := by decide
  refine ⟨?_, ?_, ?_⟩
  · have h := zp_c6_no_synchronous_reactions.1 sW1 0 (.user (.ret (.num 3)))
      (.notFn .undef)
    simpa [sW1] using h
  · have h := zp_c6_no_synchronous_reactions.2.1 sW1 0 (.user (.ret (.num 3)))
      (.notFn .undef) _ e1 e2
    simpa [sW1] using h
  · have h := zp_c6_no_synchronous_reactions.2.2.2 3 sW1 0 (.ret (.num 3))
      (.notFn .undef) _ e1 e2 e3
    simpa [sW1] using h

/-! ### Claim C7: FIFO order of reactions on one promise -/

/-- C7: two reactions registered on the same pending promise, `r1` then
`r2`, are drained in registration order at settlement — registration
schedules nothing, and settling appends one task per queue entry with `r1`'s
strictly before `r2`'s (on whichever queue matches the settlement); the
event loop runs the front of the task queue first, so with a FIFO scheduler
`r1` fires before `r2`. -/
theorem zp_c7_fifo_registration_order :
    (∀ (s s1 s2 : State) (src b1 b2 : Nat) (f1 g1 f2 g2 : Handler) (v : JSValue)
        (pr : Prom),
      s.proms.get? src = some pr → pr.PromiseState = .pending →
      thenP s src f1 g1 = (s1, b1) → thenP s1 src f2 g2 = (s2, b2) →
      s2.tasks = s.tasks
      ∧ (resolve s2 src v).tasks = s.tasks ++
          (pr.onFulfilledCallbacks ++ ([⟨b1, f1⟩, ⟨b2, f2⟩] : List Callback)).map
            (fun cb => (⟨src, cb.target, cb.handler, .onF⟩ : Task))
      ∧ (reject s2 src v).tasks = s.tasks ++
          (pr.onRejectedCallbacks ++ ([⟨b1, g1⟩, ⟨b2, g2⟩] : List Callback)).map
            (fun cb => (⟨src, cb.target, cb.handler, .onR⟩ : Task)))
    ∧ (∀ (fuel : Nat) (s : State) (t : Task) (rest : List Task),
        s.tasks = t :: rest → step fuel s = runTask fuel { s with tasks := rest } t) := by
  constructor
  · intro s s1 s2 src b1 b2 f1 g1 f2 g2 v pr h hp ht1 ht2
    have hsrc : src < s.proms.length := get?_lt h
    rw [thenP_pending f1 g1 h hp] at ht1
    injection ht1 with hs1 hb1
    subst hs1
    subst hb1
    have h1 : ({ s with
        proms := (s.proms ++ [freshProm]).set src
          (pushedPr pr s.proms.length f1 g1) } : State).proms.get? src =
        some (pushedPr pr s.proms.length f1 g1) :=
      List.get?_set_eq_of_lt _ (by simpa using Nat.lt_succ_of_lt hsrc)
    have hp1 : (pushedPr pr s.proms.length f1 g1).PromiseState = .pending := hp
    rw [thenP_pending f2 g2 h1 hp1] at ht2
    injection ht2 with hs2 hb2
    have h2 : s2.proms.get? src =
        some (pushedPr (pushedPr pr s.proms.length f1 g1) b2 f2 g2) := by
      rw [← hs2, ← hb2]
      exact List.get?_set_eq_of_lt _ (by simp; omega)
    have hp2 : (pushedPr (pushedPr pr s.proms.length f1 g1) b2 f2 g2).PromiseState =
        .pending := hp
    have ht : s2.tasks = s.tasks := by rw [← hs2]
    refine ⟨ht, ?_, ?_⟩
    · rw [resolve_pending v h2 hp2]
      simp [pushedPr, ht]
    · rw [reject_pending v h2 hp2]
      simp [pushedPr, ht]
  · intro fuel s t rest h
    exact step_cons h

/-- A pending promise used by witnesses. -/
def sWp : State := (newPromise state0).1

/-! ### Claim C8: omitted `onRejected` propagates the reason unchanged -/

/-- C8: for a promise that rejects with reason `E`, `p.then(f)` with the
`onRejected` argument omitted or non-callable yields a new promise that
rejects with the identical reason `E` — the `reject(this.PromiseResult)`
pass-through branch, not an error.  Both orders are covered: `p` already
rejected when `then` is called (the reaction fires one turn later), and `p`
still pending at registration and rejected afterwards. -/
theorem zp_c8_rejection_passthrough :
    (∀ (fuel : Nat) (s : State) (p : Nat) (f : Handler) (w E : JSValue) (pr : Prom),
      s.proms.get? p = some pr → pr.PromiseState = .rejected →
      pr.PromiseResult = E → s.tasks = [] →
      (step fuel (thenP s p f (.notFn w)).1).proms.get?
        (thenP s p f (.notFn w)).2 = some ⟨.rejected, E, [], []⟩)
    ∧ (∀ (fuel : Nat) (s : State) (p : Nat) (f : Handler) (w E : JSValue) (pr : Prom),
        s.proms.get? p = some pr → pr.PromiseState = .pending →
        pr.onRejectedCallbacks = [] → s.tasks = [] →
        (step fuel (reject (thenP s p f (.notFn w)).1 p E)).proms.get?
          (thenP s p f (.notFn w)).2 = some ⟨.rejected, E, [], []⟩) := by
  constructor
  · intro fuel s p f w E pr h hr hE htasks
    rw [thenP_rejected f (.notFn w) h hr]
    dsimp only
    have hstep : ({ s with
        proms := s.proms ++ [freshProm]
        tasks := s.tasks ++ [⟨p, s.proms.length, .notFn w, .onR⟩] } : State).tasks =
        (⟨p, s.proms.length, .notFn w, .onR⟩ : Task) :: [] := by
      simp [htasks]
    rw [step_cons hstep]
    have hsrcp : ({ s with
        proms := s.proms ++ [freshProm]
        tasks := ([] : List Task) } : State).proms.get?
        (⟨p, s.proms.length, .notFn w, .onR⟩ : Task).src = some pr := by
      show (s.proms ++ [freshProm]).get? p = some pr
      rw [List.get?_append (get?_lt h)]
      exact h
    rw [runTask_eq hsrcp]
    rw [hE, runReaction_notFn_onR]
    rw [reject_pending E (by
      show (s.proms ++ [freshProm]).get? s.proms.length = some freshProm
      exact List.get?_concat_length s.proms freshProm) rfl]
    rw [List.get?_set_eq_of_lt _ (by simp)]
    rfl
  · intro fuel s p f w E pr h hp hqr htasks
    have hplt : p < s.proms.length := get?_lt h
    rcases hT : thenP s p f (.notFn w) with ⟨s1, b⟩
    dsimp only
    rw [thenP_pending f (.notFn w) h hp] at hT
    injection hT with hs1 hb
    subst hb
    have hlen : s1.proms.length = s.proms.length + 1 := by
      rw [← hs1]
      simp
    have h1 : s1.proms.get? p = some (pushedPr pr s.proms.length f (.notFn w)) := by
      rw [← hs1]
      exact List.get?_set_eq_of_lt _ (by simp; omega)
    have hp1 : (pushedPr pr s.proms.length f (.notFn w)).PromiseState = .pending := hp
    rw [reject_pending E h1 hp1]
    have hs1tasks : s1.tasks = [] := by
      rw [← hs1]
      exact htasks
    have hstep : ({ s1 with
        proms := s1.proms.set p
          { pushedPr pr s.proms.length f (.notFn w) with
            PromiseState := .rejected, PromiseResult := E },
        tasks := s1.tasks ++
          (pushedPr pr s.proms.length f (.notFn w)).onRejectedCallbacks.map
            (fun cb => (⟨p, cb.target, cb.handler, .onR⟩ : Task)) } : State).tasks =
        (⟨p, s.proms.length, .notFn w, .onR⟩ : Task) :: [] := by
      simp [pushedPr, hqr, hs1tasks]
    rw [step_cons hstep]
    have hsrcp : ({ s1 with
        proms := s1.proms.set p
          { pushedPr pr s.proms.length f (.notFn w) with
            PromiseState := .rejected, PromiseResult := E },
        tasks := ([] : List Task) } : State).proms.get?
        (⟨p, s.proms.length, .notFn w, .onR⟩ : Task).src =
        some { pushedPr pr s.proms.length f (.notFn w) with
          PromiseState := .rejected, PromiseResult := E } := by
      show (s1.proms.set p _).get? p = _
      exact List.get?_set_eq_of_lt _ (by omega)
    rw [runTask_eq hsrcp]
    rw [runReaction_notFn_onR]
    have hq : ({ s1 with
        proms := s1.proms.set p
          { pushedPr pr s.proms.length f (.notFn w) with
            PromiseState := .rejected, PromiseResult := E },
        tasks := ([] : List Task) } : State).proms.get? s.proms.length =
        some freshProm := by
      show (s1.proms.set p _).get? s.proms.length = some freshProm
      rw [List.get?_set_ne _ _ (Nat.ne_of_lt hplt), ← hs1]
      show ((s.proms ++ [freshProm]).set p _).get? s.proms.length = some freshProm
      rw [List.get?_set_ne _ _ (Nat.ne_of_lt hplt)]
      exact List.get?_concat_length s.proms freshProm
    rw [reject_pending _ hq rfl]
    rw [List.get?_set_eq_of_lt _ (by simp; omega)]
    rfl

/-! ### Claim C9: recursive adoption of nested deferred values -/

theorem stepN_succ (fuel k : Nat) (s : State) :
    stepN fuel (k + 1) s = stepN fuel k (step fuel s) := rfl

/-- A chain of already-fulfilled promises: `Chain s c n v` says promise `c`
is fulfilled and unwrapping its result through `n` nested promises ends at
the plain (non-promise, non-object) value `v`. -/
inductive Chain : State → Nat → Nat → JSValue → Prop
| zero {s : State} {c : Nat} {v : JSValue} {pr : Prom} :
    s.proms.get? c = some pr → pr.PromiseState = .fulfilled →
    pr.PromiseResult = v → isPlain v = true → Chain s c 0 v
| succ {s : State} {c d n : Nat} {v : JSValue} {pr : Prom} :
    s.proms.get? c = some pr → pr.PromiseState = .fulfilled →
    pr.PromiseResult = .promise d → Chain s d n v → Chain s c (n + 1) v

theorem chain_head {s : State} {c n : Nat} {v : JSValue} (h : Chain s c n v) :
    ∃ pr, s.proms.get? c = some pr ∧ pr.PromiseState = .fulfilled := by
  cases h with
  | zero hc hcf _ _ => exact ⟨_, hc, hcf⟩
  | succ hc hcf _ _ => exact ⟨_, hc, hcf⟩

theorem chain_mono {s sx : State} (hf : Frozen s sx) :
    ∀ {c n : Nat} {v : JSValue}, Chain s c n v → Chain sx c n v := by
  intro c n v hch
  induction hch with
  | zero hc hcf hcr hcv =>
    exact .zero (hf _ _ hc (by rw [hcf]; decide)) hcf hcr hcv
  | succ hc hcf hcr _ ih =>
    exact .succ (hf _ _ hc (by rw [hcf]; decide)) hcf hcr ih

theorem resolve_get_self {s : State} {p : Nat} {pr : Prom} (v : JSValue)
    (h : s.proms.get? p = some pr) (hp : pr.PromiseState = .pending) :
    (resolve s p v).proms.get? p =
      some { pr with PromiseState := .fulfilled, PromiseResult := v } := by
  rw [resolve_pending v h hp]
  exact List.get?_set_eq_of_lt _ (get?_lt h)

theorem reject_get_self {s : State} {p : Nat} {pr : Prom} (v : JSValue)
    (h : s.proms.get? p = some pr) (hp : pr.PromiseState = .pending) :
    (reject s p v).proms.get? p =
      some { pr with PromiseState := .rejected, PromiseResult := v } := by
  rw [reject_pending v h hp]
  exact List.get?_set_eq_of_lt _ (get?_lt h)

theorem resolve_get_other (s : State) (p : Nat) (v : JSValue) {i : Nat}
    (hip : i ≠ p) : (resolve s p v).proms.get? i = s.proms.get? i := by
  unfold resolve
  split
  · rfl
  · split
    · show (s.proms.set p _).get? i = s.proms.get? i
      exact List.get?_set_ne _ _ (fun e => hip e.symm)
    · rfl

theorem reject_get_other (s : State) (p : Nat) (v : JSValue) {i : Nat}
    (hip : i ≠ p) : (reject s p v).proms.get? i = s.proms.get? i := by
  unfold reject
  split
  · rfl
  · split
    · show (s.proms.set p _).get? i = s.proms.get? i
      exact List.get?_set_ne _ _ (fun e => hip e.symm)
    · rfl

theorem resolve_tasks {s : State} {p : Nat} {pr : Prom} (v : JSValue)
    (h : s.proms.get? p = some pr) (hp : pr.PromiseState = .pending) :
    (resolve s p v).tasks = s.tasks ++
      pr.onFulfilledCallbacks.map (fun cb => (⟨p, cb.target, cb.handler, .onF⟩ : Task)) := by
  rw [resolve_pending v h hp]

/-- Running the single pending adoption task against an `n`-deep fulfilled
chain unwinds it completely: after `n + 1` turns the adopting promise `b`
is fulfilled with the chain's final plain value. -/
theorem c9_chain_run (fuel : Nat) :
    ∀ (n : Nat) (s : State) (b c q : Nat) (v : JSValue) (prB : Prom),
      Chain s c n v →
      s.proms.get? b = some prB → prB.PromiseState = .pending →
      s.proms.get? q = some freshProm → b ≠ q →
      s.tasks = [⟨c, q, .resolveCont b, .onF⟩] →
      ((stepN (fuel + 1) (n + 1) s).proms.get? b).map
        (fun pr => (pr.PromiseState, pr.PromiseResult)) =
        some (.fulfilled, v) := by
  intro n
  induction n with
  | zero =>
    intro s b c q v prB hch hb hbp hq hbq htasks
    cases hch with
    | zero hc hcf hcr hcv =>
      rename_i prC
      rw [stepN_succ]
      show ((step (fuel + 1) s).proms.get? b).map _ = _
      rw [step_cons htasks]
      have hsrcp : ({ s with tasks := ([] : List Task) } : State).proms.get?
          (⟨c, q, Handler.resolveCont b, QKind.onF⟩ : Task).src = some prC := hc
      rw [runTask_eq hsrcp]
      rw [hcr]
      rw [runReaction_resolveCont_ok QKind.onF (rnp_plain fuel _ b hcv)
        (rnp_plain fuel _ q (by decide))]
      rw [resolve_get_other _ q JSValue.undef hbq]
      have hb1 : ({ s with tasks := ([] : List Task) } : State).proms.get? b =
          some prB := hb
      rw [resolve_get_self v hb1 hbp]
      rfl
  | succ n ih =>
    intro s b c q v prB hch hb hbp hq hbq htasks
    cases hch with
    | succ hc hcf hcr hchd =>
      rename_i d prC
      obtain ⟨prD, hd, hdf⟩ := chain_head hchd
      have hdb : d ≠ b := by
        intro e
        rw [e, hb] at hd
        injection hd with h2
        rw [← h2, hbp] at hdf
        exact PState.noConfusion hdf
      rw [stepN_succ]
      rw [step_cons htasks]
      have hsrcp : ({ s with tasks := ([] : List Task) } : State).proms.get?
          (⟨c, q, Handler.resolveCont b, QKind.onF⟩ : Task).src = some prC := hc
      rw [runTask_eq hsrcp]
      rw [hcr]
      have h1 := rnp_promise_ne fuel ({ s with tasks := ([] : List Task) } : State) hdb
      have hd2 : ({ s with tasks := ([] : List Task) } : State).proms.get? d =
          some prD := hd
      rw [thenP_fulfilled (Handler.resolveCont b) (Handler.rejectCont b) hd2 hdf] at h1
      rw [runReaction_resolveCont_ok QKind.onF h1 (rnp_plain fuel _ q (by decide))]
      have hq2 : ({ s with
          proms := s.proms ++ [freshProm]
          tasks := ([] : List Task) ++
            [⟨d, s.proms.length, Handler.resolveCont b, QKind.onF⟩] } :
          State).proms.get? q = some freshProm := by
        show (s.proms ++ [freshProm]).get? q = some freshProm
        rw [List.get?_append (get?_lt hq)]
        exact hq
      have hLq : s.proms.length ≠ q := Ne.symm (Nat.ne_of_lt (get?_lt hq))
      apply ih _ b d s.proms.length v prB
      · refine chain_mono ?_ hchd
        refine frozenTrans ?_ (frozen_resolve _ q JSValue.undef)
        intro i pri hi _
        show (s.proms ++ [freshProm]).get? i = some pri
        rw [List.get?_append (get?_lt hi)]
        exact hi
      · rw [resolve_get_other _ _ _ hbq]
        show (s.proms ++ [freshProm]).get? b = some prB
        rw [List.get?_append (get?_lt hb)]
        exact hb
      · exact hbp
      · rw [resolve_get_other _ _ _ hLq]
        show (s.proms ++ [freshProm]).get? s.proms.length = some freshProm
        exact List.get?_concat_length s.proms freshProm
      · exact Nat.ne_of_lt (get?_lt hb)
      · rw [resolve_tasks JSValue.undef hq2 rfl]
        rfl

/-- Three pending promises for the nested-pending scenario. -/
def sB0 : State := ⟨[freshProm, freshProm, freshProm], [], [], [], 0⟩

/-- C9: given `a.then(f)` returning `b`, a ZPromise result is adopted
recursively until a plain value is reached.  (1) If the Resolution Procedure
resolves pending `b` with a promise `c` whose result unwinds through `n`
nested fulfilled promises to the plain value `v`, then `n + 1` event-loop
turns later `b` is fulfilled with `v` — the chain unwinds fully, at every
depth.  (2) The claim's pending variant, concretely: `b` adopts pending
`c`, `c` adopts pending `d`, then `d` is fulfilled with a number `k`; two
turns later `b` is fulfilled with `k`.  (3) If instead the nested promise
`c` is rejected with reason `r`, one turn later `b` is rejected directly
with that same `r`. -/
theorem zp_c9_nested_promise_adoption :
    (∀ (fuel n : Nat) (s : State) (b c : Nat) (v : JSValue) (prB : Prom),
      Chain s c n v → s.proms.get? b = some prB → prB.PromiseState = .pending →
      s.tasks = [] →
      ((stepN (fuel + 1) (n + 1)
          (resolveNextPromise (fuel + 1) s b (.promise c)).1).proms.get? b).map
        (fun pr => (pr.PromiseState, pr.PromiseResult)) =
        some (.fulfilled, v))
    ∧ (∀ k : Int,
        (stepN 5 2 (resolve
            (resolveNextPromise 5
              (resolveNextPromise 5 sB0 0 (.promise 1)).1 1 (.promise 2)).1
            2 (.num k))).proms.get? 0 =
          some ⟨.fulfilled, .num k, [], []⟩)
    ∧ (∀ (fuel : Nat) (s : State) (b c : Nat) (r : JSValue) (prB prC : Prom),
        s.proms.get? b = some prB → prB.PromiseState = .pending →
        s.proms.get? c = some prC → prC.PromiseState = .rejected →
        prC.PromiseResult = r → s.tasks = [] →
        ((stepN (fuel + 1) 1
            (resolveNextPromise (fuel + 1) s b (.promise c)).1).proms.get? b).map
          (fun pr => (pr.PromiseState, pr.PromiseResult)) =
          some (.rejected, r)) := by
  refine ⟨?_, ?_, ?_⟩
  · intro fuel n s b c v prB hch hb hbp htasks
    obtain ⟨prC, hc, hcf⟩ := chain_head hch
    have hcb : c ≠ b := by
      intro e
      rw [e, hb] at hc
      injection hc with h2
      rw [← h2, hbp] at hcf
      exact PState.noConfusion hcf
    rw [rnp_promise_ne fuel s hcb]
    dsimp only
    rw [thenP_fulfilled (Handler.resolveCont b) (Handler.rejectCont b) hc hcf]
    dsimp only
    apply c9_chain_run fuel n _ b c s.proms.length v prB
    · refine chain_mono ?_ hch
      intro i pri hi _
      show (s.proms ++ [freshProm]).get? i = some pri
      rw [List.get?_append (get?_lt hi)]
      exact hi
    · show (s.proms ++ [freshProm]).get? b = some prB
      rw [List.get?_append (get?_lt hb)]
      exact hb
    · exact hbp
    · exact List.get?_concat_length s.proms freshProm
    · exact Nat.ne_of_lt (get?_lt hb)
    · show s.tasks ++ _ = _
      rw [htasks]
      rfl
  · intro k
    rfl
  · intro fuel s b c r prB prC hb hbp hc hcr hcrr htasks
    have hcb : c ≠ b := by
      intro e
      rw [e, hb] at hc
      injection hc with h2
      rw [← h2, hbp] at hcr
      exact PState.noConfusion hcr
    rw [rnp_promise_ne fuel s hcb]
    dsimp only
    rw [thenP_rejected (Handler.resolveCont b) (Handler.rejectCont b) hc hcr]
    dsimp only
    rw [stepN_succ]
    show ((step (fuel + 1) _).proms.get? b).map _ = _
    rw [step_cons (show ({ s with
        proms := s.proms ++ [freshProm]
        tasks := s.tasks ++ [⟨c, s.proms.length, Handler.rejectCont b, QKind.onR⟩] } :
        State).tasks =
        (⟨c, s.proms.length, Handler.rejectCont b, QKind.onR⟩ : Task) :: [] by
      rw [htasks]
      rfl)]
    have hsrcp : ({ s with
        proms := s.proms ++ [freshProm]
        tasks := ([] : List Task) } : State).proms.get?
        (⟨c, s.proms.length, Handler.rejectCont b, QKind.onR⟩ : Task).src =
        some prC := by
      show (s.proms ++ [freshProm]).get? c = some prC
      rw [List.get?_append (get?_lt hc)]
      exact hc
    rw [runTask_eq hsrcp]
    rw [hcrr]
    rw [runReaction_rejectCont QKind.onR
      (rnp_plain fuel _ s.proms.length (by decide))]
    rw [resolve_get_other _ _ JSValue.undef (Nat.ne_of_lt (get?_lt hb))]
    have hb1 : ({ s with
        proms := s.proms ++ [freshProm]
        tasks := ([] : List Task) } : State).proms.get? b = some prB := by
      show (s.proms ++ [freshProm]).get? b = some prB
      rw [List.get?_append (get?_lt hb)]
      exact hb
    rw [reject_get_self r hb1 hbp]
    rfl

/-- A promise chain used by the C9 witness: `2` fulfilled with promise `1`,
`1` fulfilled with `9`, `0` pending. -/
def sW9 : State :=
  ⟨[freshProm, ⟨.fulfilled, .num 9, [], []⟩, ⟨.fulfilled, .promise 1, [], []⟩],
   [], [], [], 0⟩

/-- A rejected nested promise used by the C9 witness. -/
def sW9r : State := ⟨[freshProm, ⟨.rejected, .str "boom", [], []⟩], [], [], [], 0⟩

/-- Witness for C9 at concrete inputs. -/
theorem zp_c9_nested_promise_adoption_witness :
    ((stepN 3 2 (resolveNextPromise 3 sW9 0 (.promise 2)).1).proms.get? 0).map
      (fun pr => (pr.PromiseState, pr.PromiseResult)) = some (.fulfilled, .num 9)
    ∧ ((stepN 3 1 (resolveNextPromise 3 sW9r 0 (.promise 1)).1).proms.get? 0).map
      (fun pr => (pr.PromiseState, pr.PromiseResult)) = some (.rejected, .str "boom") := by
  constructor
  · exact zp_c9_nested_promise_adoption.1 2 1 sW9 0 2 (.num 9) freshProm
      (.succ rfl rfl rfl (.zero rfl rfl rfl rfl)) rfl rfl rfl
  · exact zp_c9_nested_promise_adoption.2.2 2 sW9r 0 1 (.str "boom") freshProm
      ⟨.rejected, .str "boom", [], []⟩ rfl rfl rfl rfl rfl rfl

/-- A rejected promise used by witnesses. -/
def sWr : State := ⟨[⟨.rejected, .str "E", [], []⟩], [], [], [], 0⟩

/-- Witness for C8 at concrete inputs. -/
theorem zp_c8_rejection_passthrough_witness :
    (step 3 (thenP sWr 0 (.user (.ret (.num 1))) (.notFn .undef)).1).proms.get?
      (thenP sWr 0 (.user (.ret (.num 1))) (.notFn .undef)).2 =
      some ⟨.rejected, .str "E", [], []⟩
    ∧ (step 3 (reject (thenP sWp 0 (.user (.ret (.num 1))) (.notFn .undef)).1 0
        (.str "E"))).proms.get?
        (thenP sWp 0 (.user (.ret (.num 1))) (.notFn .undef)).2 =
      some ⟨.rejected, .str "E", [], []⟩ := by
  constructor
  · exact zp_c8_rejection_passthrough.1 3 sWr 0 (.user (.ret (.num 1))) .undef
      (.str "E") ⟨.rejected, .str "E", [], []⟩ (by decide) (by decide) (by decide)
      (by decide)
  · exact zp_c8_rejection_passthrough.2 3 sWp 0 (.user (.ret (.num 1))) .undef
      (.str "E") freshProm (by decide) (by decide) (by decide) (by decide)

/-- Witness for C7 at concrete inputs. -/
theorem zp_c7_fifo_registration_order_witness :
    (resolve (thenP (thenP sWp 0 (.user (.ret (.num 1))) (.notFn .undef)).1 0
        (.user (.ret (.num 2))) (.notFn .undef)).1 0 (.num 5)).tasks =
      [⟨0, 1, .user (.ret (.num 1)), .onF⟩, ⟨0, 2, .user (.ret (.num 2)), .onF⟩] := by
  have h := (zp_c7_fifo_registration_order.1 sWp
    (thenP sWp 0 (.user (.ret (.num 1))) (.notFn .undef)).1
    (thenP (thenP sWp 0 (.user (.ret (.num 1))) (.notFn .undef)).1 0
      (.user (.ret (.num 2))) (.notFn .undef)).1
    0 1 2 (.user (.ret (.num 1))) (.notFn .undef) (.user (.ret (.num 2))) (.notFn .undef)
    (.num 5) freshProm rfl rfl rfl rfl).2.1
  simpa using h

/-- Witness for C1 at concrete inputs. -/
theorem zp_c1_state_transitions_at_most_once_witness :
    (newPromise state0).1.proms.get? (newPromise state0).2 = some freshProm
    ∧ resolve sW1 0 (.num 2) = sW1
    ∧ reject sW1 0 (.str "e") = sW1
    ∧ (stepN 1 1 sW1).proms.get? 0 = some ⟨.fulfilled, .num 1, [], []⟩ := by
  refine ⟨zp_c1_state_transitions_at_most_once.1 state0, ?_, ?_, ?_⟩
  · exact (zp_c1_state_transitions_at_most_once.2.2.1 sW1 0 ⟨.fulfilled, .num 1, [], []⟩
      (.num 2) rfl (by decide)).1
  · exact (zp_c1_state_transitions_at_most_once.2.2.1 sW1 0 ⟨.fulfilled, .num 1, [], []⟩
      (.str "e") rfl (by decide)).2
  · exact zp_c1_state_transitions_at_most_once.2.2.2.2.2 1 1 sW1 0
      ⟨.fulfilled, .num 1, [], []⟩ rfl (by decide)

end ZP
